import Mathlib

/-!
Verification development for the u8g2-python-simulator rendering core
(`src/u8g2_sim.py`): the LRU bitmap cache, the framebuffer drawing
primitives, the packed 1-bpp blitter, the file-bitmap cache key logic, and
the live-reload tick loop.  Python code is shallowly embedded: machine
integers become `Nat`/`Int` (with explicit masking where the source masks),
Python `float` timestamps are modelled as exact rationals, fallible calls
return `Option`, and the Tk presentation layer is out of scope (as in the
spec).
-/

/-! ### Pillow image model

A PIL image is modelled as a pixel function over integer coordinates plus a
size and a mode tag.  Only the modes the simulator manipulates are
distinguished ("1", "L", anything else).  `putpixel` is fallible because
PIL raises `IndexError` for out-of-range coordinates; the simulator's own
guards are what make its drawing total. -/

inductive PMode where
  | one
  | L
  | other
deriving DecidableEq

structure PImage where
  width : Nat
  height : Nat
  pix : Int → Int → Nat
  mode : PMode

/-- Raw pixel write `img.putpixel((x, y), v)`: PIL raises when (x,y) is out
of range, modelled as `none`. -/
def PImage.putpixelSet (img : PImage) (x y : Int) (v : Nat) : PImage :=
  { img with pix := fun i j => if i = x ∧ j = y then v else img.pix i j }

def PImage.putpixel (img : PImage) (x y : Int) (v : Nat) : Option PImage :=
  if 0 ≤ x ∧ x < (img.width : Int) ∧ 0 ≤ y ∧ y < (img.height : Int) then
    some (img.putpixelSet x y v)
  else
    none

/-- `img.convert("L")`.  A mode-"1" image already reads back 0/255 pixel
values, so the stored channel is unchanged; for other modes the simulator's
claims never depend on the colorimetric transform, and the model keeps the
single stored channel. -/
def PImage.convertL (img : PImage) : PImage :=
  { img with mode := PMode.L }

/-- `img.point(lambda p: 255 if p >= 128 else 0)` on a mode-"L" image. -/
def PImage.point128 (img : PImage) : PImage :=
  { img with pix := fun i j => if 128 ≤ img.pix i j then 255 else 0 }

/-- `img.convert("1")`.  Real PIL dithers, but every call site in the
source applies it to an image whose pixels are already 0/255, where the
midpoint threshold is exact. -/
def PImage.convert1 (img : PImage) : PImage :=
  { img with mode := PMode.one,
             pix := fun i j => if 128 ≤ img.pix i j then 255 else 0 }

/-- `ImageOps.invert` on a mode-"L" image: 255 - value. -/
def PImage.invertOps (img : PImage) : PImage :=
  { img with pix := fun i j => 255 - img.pix i j }

/-! ### `_LRUCache` (src/u8g2_sim.py lines 35-54)

The backing `OrderedDict` is a key-value list whose front is the least
recently used entry and whose back is the most recently used. -/

structure LRUCache (K V : Type) where
  maxItems : Nat
  d : List (K × V)

/-- `__init__`: `self.max_items = max(1, int(max_items))`. -/
def LRUCache.init (K V : Type) (max_items : Int) : LRUCache K V :=
  { maxItems := (max 1 max_items).toNat, d := [] }

/-- `OrderedDict.move_to_end(key)`: relocate the key's entry to the back. -/
def lruMoveToEnd {K V : Type} [DecidableEq K] (d : List (K × V)) (k : K) :
    List (K × V) :=
  match d.find? (fun e => e.1 = k) with
  | none => d
  | some e => (d.eraseP (fun e => e.1 = k)) ++ [e]

/-- `get`: on a hit, promote to most recently used and return the value. -/
def LRUCache.get {K V : Type} [DecidableEq K] (c : LRUCache K V) (k : K) :
    Option V × LRUCache K V :=
  if c.d.any (fun e => e.1 = k) then
    (((c.d.find? (fun e => e.1 = k)).map Prod.snd),
      { c with d := lruMoveToEnd c.d k })
  else
    (none, c)

/-- The `while len(self._d) > self.max_items: self._d.popitem(last=False)`
eviction loop: drop from the front until the size bound holds (popping from
an over-capacity dict always has a first item, so recursion on the tail is
the loop verbatim). -/
def lruEvict {K V : Type} (maxItems : Nat) (d : List (K × V)) : List (K × V) :=
  match d with
  | [] => []
  | a :: t => if (a :: t).length > maxItems then lruEvict maxItems t else a :: t

/-- `put`: `self._d[key] = value` (an existing key keeps its value slot),
then `move_to_end`, then evict while over capacity.  The set-then-promote
pair lands the entry at the back with the new value. -/
def LRUCache.put {K V : Type} [DecidableEq K] (c : LRUCache K V) (k : K)
    (v : V) : LRUCache K V :=
  { c with d := lruEvict c.maxItems ((c.d.eraseP (fun e => e.1 = k)) ++ [(k, v)]) }

/-- `clear`. -/
def LRUCache.clear {K V : Type} (c : LRUCache K V) : LRUCache K V :=
  { c with d := [] }

/-! ### `U8G2SimLCD` state

`self.width`/`self.height` are set at construction to the framebuffer
image's dimensions and never diverge from them, so the model reads them
from the image.  The cache key type mirrors the Python tuples
`(abspath, int(mtime), invert)` and `(path, None, invert)`. -/

abbrev CKey : Type := String × Option Int × Bool

structure LCD where
  img : PImage
  draw_color : Nat
  bmp_cache : LRUCache CKey PImage

def LCD.width (lcd : LCD) : Nat := lcd.img.width

def LCD.height (lcd : LCD) : Nat := lcd.img.height

/-- `drawPixel` (lines 125-127): guarded raw pixel write; out-of-range
coordinates are silently ignored. -/
def drawPixel (lcd : LCD) (x y : Int) : Option LCD :=
  if 0 ≤ x ∧ x < (lcd.width : Int) ∧ 0 ≤ y ∧ y < (lcd.height : Int) then
    (lcd.img.putpixel x y lcd.draw_color).map (fun im => { lcd with img := im })
  else
    some lcd

/-! ### Packed 1-bpp blitter `drawBitmap1` (lines 225-245) -/

/-- Bit extraction for one (row, col) position:
`b_i = row*stride + col//8`;
`bit = (buf[b_i] >> (7 - col % 8)) & 1 if b_i < len(buf) else 0`;
`if invert: bit ^= 1`. -/
def bitAt (buf : List Nat) (stride row col : Nat) (invert : Bool) : Nat :=
  let b_i := row * stride + col / 8
  let bit := if b_i < buf.length then ((buf.getD b_i 0) >>> (7 - col % 8)) &&& 1
             else 0
  if invert then bit ^^^ 1 else bit

/-- The guarded per-pixel write
`if 0 <= x < width and 0 <= y < height: putpixel((x, y), on_color)`
shared by `drawBitmap1`'s loop body. -/
def blitStep (on_color : Nat) (x y : Int) (lcd : LCD) : Option LCD :=
  if 0 ≤ x ∧ x < (lcd.width : Int) ∧ 0 ≤ y ∧ y < (lcd.height : Int) then
    (lcd.img.putpixel x y on_color).map (fun im => { lcd with img := im })
  else
    some lcd

/-- Pure form of `blitStep` (the guard makes `putpixel` total). -/
def blitStepPure (on_color : Nat) (x y : Int) (lcd : LCD) : LCD :=
  if 0 ≤ x ∧ x < (lcd.width : Int) ∧ 0 ≤ y ∧ y < (lcd.height : Int) then
    { lcd with img := lcd.img.putpixelSet x y on_color }
  else
    lcd

/-- `drawBitmap1(x, y, w, h, data, stride=None, invert=False)`: row-major,
MSB-first 1-bpp blit.  `stride` defaults to `(w + 7) // 8`; the data bytes
are masked with `& 0xFF`; `on_color` is the draw color captured before the
loops.  Negative `w`/`h` make Python's `range` empty, so the model takes
them as naturals. -/
def drawBitmap1 (lcd : LCD) (x y : Int) (w h : Nat) (data : List Nat)
    (strideArg : Option Nat) (invert : Bool) : Option LCD :=
  let stride := strideArg.getD ((w + 7) / 8)
  let buf := data.map (· % 256)
  let on_color := lcd.draw_color
  (List.range h).foldlM (fun acc row =>
    (List.range w).foldlM (fun acc2 col =>
      if bitAt buf stride row col invert = 1 then
        blitStep on_color (x + (col : Int)) (y + (row : Int)) acc2
      else
        some acc2) acc) lcd

/-- `_blit_PIL_image_mono` (lines 282-291): plot the nonzero pixels of a
decoded image with the current draw color, clipped to the framebuffer. -/
def blitPILImageMono (lcd : LCD) (pimg : PImage) (x y : Int) : Option LCD :=
  let on_color := lcd.draw_color
  (List.range pimg.height).foldlM (fun acc (j : Nat) =>
    (List.range pimg.width).foldlM (fun acc2 (i : Nat) =>
      let v : Nat := if pimg.pix (i : Nat) (j : Nat) ≠ 0 then 1 else 0
      if v ≠ 0 ∧ 0 ≤ x + (i : Nat) ∧ x + (i : Nat) < (acc2.width : Int) ∧
          0 ≤ y + (j : Nat) ∧ y + (j : Nat) < (acc2.height : Int) then
        (acc2.img.putpixel (x + (i : Nat)) (y + (j : Nat)) on_color).map
          (fun im => { acc2 with img := im })
      else
        some acc2) acc) lcd

/-! ### `drawBox` / `drawFrame` (lines 132-136)

Both delegate to `ImageDraw.rectangle((x, y, x+w-1, y+h-1), ...)` with no
guard for degenerate sizes.  The rectangle model follows Pillow's
documented contract (Pillow ≥ 9.2.0): the corners must satisfy `x1 ≥ x0`
and `y1 ≥ y0`, and violating corners raise `ValueError` (modelled as
`none`); a valid rectangle paints the inclusive corner box (fill) or its
border (outline), clipped to the image. -/

def ImageDrawRectangle (img : PImage) (x0 y0 x1 y1 : Int) (color : Nat)
    (fill : Bool) : Option PImage :=
  if x1 < x0 ∨ y1 < y0 then
    none
  else
    let paint : Int → Int → Nat := fun i j =>
      if 0 ≤ i ∧ i < (img.width : Int) ∧ 0 ≤ j ∧ j < (img.height : Int) ∧
          x0 ≤ i ∧ i ≤ x1 ∧ y0 ≤ j ∧ j ≤ y1 ∧
          (fill = true ∨ i = x0 ∨ i = x1 ∨ j = y0 ∨ j = y1) then
        color
      else
        img.pix i j
    some { img with pix := paint }

def drawBox (lcd : LCD) (x y w h : Int) : Option LCD :=
  (ImageDrawRectangle lcd.img x y (x + w - 1) (y + h - 1) lcd.draw_color
    true).map (fun im => { lcd with img := im })

def drawFrame (lcd : LCD) (x y w h : Int) : Option LCD :=
  (ImageDrawRectangle lcd.img x y (x + w - 1) (y + h - 1) lcd.draw_color
    false).map (fun im => { lcd with img := im })

/-! ### File-based blitting with cache (lines 252-301)

The filesystem is a parameter: `abspath` resolves paths, `stat` yields the
file's modification timestamp (`none` models an `os.stat` exception) as an
exact rational standing for the Python float, and `openImg` models
`Image.open` (`none` models an open/decode exception caught by the
source's `try`). -/

structure FileSystem where
  abspath : String → String
  stat : String → Option Rat
  openImg : String → Option PImage

/-- Python `int()` on a float/rational: truncation toward zero. -/
def pyInt (q : Rat) : Int := Int.tdiv q.num (q.den : Int)

/-- The timestamp 5.2 s (26/5), given in normal form so that the kernel can
evaluate it. -/
def mt52 : Rat := ⟨26, 5, by norm_num, by norm_num [Int.natAbs, Nat.Coprime]⟩

/-- The timestamp 5.9 s (59/10). -/
def mt59 : Rat := ⟨59, 10, by norm_num, by norm_num [Int.natAbs, Nat.Coprime]⟩

/-- The timestamp 3.5 s (7/2). -/
def mt72 : Rat := ⟨7, 2, by norm_num, by norm_num [Int.natAbs, Nat.Coprime]⟩

/-- The key computation of `_load_image_mono_cached` (lines 255-261):
`(abspath, int(st.st_mtime), bool(invert))` when `os.stat` succeeds, else
the degraded `(path, None, bool(invert))`. -/
def computeKey (fs : FileSystem) (path : String) (invert : Bool) : CKey :=
  match fs.stat (fs.abspath path) with
  | some m => (fs.abspath path, some (pyInt m), invert)
  | none => (path, none, invert)

/-- `_load_image_mono_cached` (lines 253-280): key lookup, open, mode
normalisation, midpoint threshold, optional inversion, cache store. -/
def load_image_mono_cached (fs : FileSystem) (lcd : LCD) (path : String)
    (invert : Bool) : Option PImage × LCD :=
  let key := computeKey fs path invert
  let res := lcd.bmp_cache.get key
  match res.1 with
  | some cached => (some cached, { lcd with bmp_cache := res.2 })
  | none =>
    match fs.openImg path with
    | none => (none, { lcd with bmp_cache := res.2 })
    | some img0 =>
      let img1 := if img0.mode ≠ PMode.one ∧ img0.mode ≠ PMode.L then
                    img0.convertL else img0
      let img2 := if img1.mode = PMode.L then img1.point128.convert1 else img1
      let img3 := if invert then img2.convertL.invertOps.convert1 else img2
      (some img3, { lcd with bmp_cache := res.2.put key img3 })

/-- `drawXBMfile` (lines 293-296; `drawPBMfile` is identical): load via the
cache, then blit if an image came back. -/
def drawXBMfile (fs : FileSystem) (lcd : LCD) (path : String) (x y : Int)
    (invert : Bool) : Option LCD :=
  let res := load_image_mono_cached fs lcd path invert
  match res.1 with
  | none => some res.2
  | some img => blitPILImageMono res.2 img x y

/-! ### `LivePythonRenderer` (lines 328-406)

One tick of the `pump` closure is modelled as a function of the renderer
state and of what the outside world does on that tick: the `os.stat`
outcome, whether the file read succeeds, what `exec` produces (`none`
models a raised exception), and whether this tick's entry-point invocation
raises.  `exec`'s result is abstracted to the callables it defines plus a
version number identifying the loaded code, which lets frames record which
code version actually ran. -/

structure ProgEnv where
  version : Nat
  hasDraw : Bool
  hasDemoDraw : Bool
deriving DecidableEq

structure RState where
  last_mtime : Option Rat
  module_env : Option ProgEnv
  func_name : Option String
deriving DecidableEq

structure TickInput where
  statRes : Option Rat
  readOk : Bool
  execRes : Option ProgEnv
  runFault : Bool

/-- What a tick paints, in order.  `waiting`, `readErr`, `execErr` and
`noEntry` come from `_show_message`/`_show_error` inside `_load`;
`runErr`/`drawn` record the entry-point invocation in `pump` (tagged with
the code version that was invoked). -/
inductive Frame where
  | waiting
  | readErr
  | execErr
  | noEntry
  | runErr (version : Nat)
  | drawn (version : Nat)
deriving DecidableEq

/-- `_load` (lines 338-375).  Note the two early returns: a missing file
shows the waiting message, and an unchanged mtime does nothing.  The
mtime is recorded *before* read/exec; a failed exec returns with
`module_env` untouched, while a load that finds no entry point clears it. -/
def loadStep (s : RState) (inp : TickInput) : RState × List Frame :=
  match inp.statRes with
  | none => (s, [Frame.waiting])
  | some mtime =>
    if s.last_mtime = some mtime then
      (s, [])
    else
      let s1 : RState := { s with last_mtime := some mtime }
      if inp.readOk = false then
        (s1, [Frame.readErr])
      else
        match inp.execRes with
        | none => (s1, [Frame.execErr])
        | some env =>
          if env.hasDraw then
            ({ s1 with module_env := some env, func_name := some "draw" }, [])
          else if env.hasDemoDraw then
            ({ s1 with module_env := some env, func_name := some "demo_draw" },
              [])
          else
            ({ s1 with module_env := none }, [Frame.noEntry])

/-- `env.get(self._func_name)` followed by the `callable(func)` test. -/
def ProgEnv.lookupCallable (env : ProgEnv) (n : String) : Bool :=
  if n = "draw" then env.hasDraw
  else if n = "demo_draw" then env.hasDemoDraw
  else false

def funcOk (s : RState) (env : ProgEnv) : Bool :=
  match s.func_name with
  | some n => env.lookupCallable n
  | none => false

/-- One tick of `pump` (lines 393-406): `_load`, then — if `_module_env`
is truthy (a loaded env dict is never empty: it holds `__name__` and
`__file__`) — look up and invoke the bound entry point, catching a fault
and rendering it as a draw error. -/
def tick (s : RState) (inp : TickInput) : RState × List Frame :=
  let r := loadStep s inp
  match r.1.module_env with
  | none => r
  | some env =>
    if funcOk r.1 env then
      if inp.runFault then
        (r.1, r.2 ++ [Frame.runErr env.version])
      else
        (r.1, r.2 ++ [Frame.drawn env.version])
    else
      r

/-- The initial renderer state set up by `__init__`. -/
def rInit : RState := { last_mtime := none, module_env := none, func_name := none }

/-- Ticks in sequence; returns the final state and the frame events of each
tick. -/
def runTicks (s : RState) : List TickInput → RState × List (List Frame)
  | [] => (s, [])
  | inp :: rest =>
    let r := tick s inp
    let r2 := runTicks r.1 rest
    (r2.1, r.2 :: r2.2)

/-! ### Operation sequences over the cache (for the LRU claims) -/

inductive CacheOp (K V : Type) where
  | get (k : K)
  | put (k : K) (v : V)
  | clear

def LRUCache.applyOp {K V : Type} [DecidableEq K] (c : LRUCache K V) :
    CacheOp K V → LRUCache K V
  | CacheOp.get k => (c.get k).2
  | CacheOp.put k v => c.put k v
  | CacheOp.clear => c.clear

def LRUCache.run {K V : Type} [DecidableEq K] (c : LRUCache K V)
    (ops : List (CacheOp K V)) : LRUCache K V :=
  ops.foldl LRUCache.applyOp c

/-! ### Blitter proof scaffolding

Pure mirrors of the `Option`-threaded blit loops (the source's guards make
every `putpixel` call succeed, so the loops are equal to their pure
counterparts), plus the clipping predicate and a transcription of claim
C4's pixel-set condition. -/

/-- The clipping test `0 <= x < self.width and 0 <= y < self.height`. -/
def inB (lcd : LCD) (i j : Int) : Prop :=
  0 ≤ i ∧ i < (lcd.width : Int) ∧ 0 ≤ j ∧ j < (lcd.height : Int)

instance (lcd : LCD) (i j : Int) : Decidable (inB lcd i j) := by
  unfold inB; infer_instance

/-- One row of `drawBitmap1`'s loop, with the pure step. -/
def blitRowGo (on_color : Nat) (x y : Int) (buf : List Nat)
    (stride row : Nat) (invert : Bool) (w : Nat) (acc : LCD) : LCD :=
  (List.range w).foldl (fun acc2 col =>
    if bitAt buf stride row col invert = 1 then
      blitStepPure on_color (x + (col : Int)) (y + (row : Int)) acc2
    else
      acc2) acc

/-- The pure mirror of `drawBitmap1` (after stride defaulting, byte
masking and draw-color capture). -/
def drawBitmap1Go (lcd : LCD) (x y : Int) (w h : Nat) (buf : List Nat)
    (stride : Nat) (invert : Bool) (on_color : Nat) : LCD :=
  (List.range h).foldl
    (fun acc row => blitRowGo on_color x y buf stride row invert w acc) lcd

/-- Transcription of claim C4's pixel-set condition, following the claim's
words: position (i, j) = (x+c, y+r) for some row r < h and column c < w
whose byte index `r*stride + c/8` lies *within* `data` and whose bit
`7 - (c % 8)` is 1 after optional inversion, with stride = ceil(w/8). -/
def claimedBlitCond (x y : Int) (w h : Nat) (data : List Nat)
    (invert : Bool) (i j : Int) : Prop :=
  ∃ r, r < h ∧ ∃ c, c < w ∧ i = x + (c : Int) ∧ j = y + (r : Int) ∧
    (r * ((w + 7) / 8) + c / 8 < data.length) ∧
    ((if invert then
        ((((data.map (· % 256)).getD (r * ((w + 7) / 8) + c / 8) 0) >>>
          (7 - c % 8)) &&& 1) ^^^ 1
      else
        (((data.map (· % 256)).getD (r * ((w + 7) / 8) + c / 8) 0) >>>
          (7 - c % 8)) &&& 1) = 1)

instance (x y : Int) (w h : Nat) (data : List Nat) (invert : Bool)
    (i j : Int) : Decidable (claimedBlitCond x y w h data invert i j) := by
  unfold claimedBlitCond; infer_instance

/-! ## Library of helper lemmas -/

theorem lruEvict_eq_drop {K V : Type} (m : Nat) (d : List (K × V)) :
    lruEvict m d = d.drop (d.length - m) := by
  induction d with
  | nil => simp [lruEvict]
  | cons a t ih =>
    rw [lruEvict]
    by_cases h : (a :: t).length > m
    · rw [if_pos h, ih]
      have hlen : (a :: t).length - m = (t.length - m) + 1 := by
        simp only [List.length_cons] at h ⊢; omega
      rw [hlen, List.drop_succ_cons]
    · rw [if_neg h]
      have hlen : (a :: t).length - m = 0 := by
        simp only [List.length_cons] at h ⊢; omega
      rw [hlen, List.drop_zero]

theorem lruEvict_length_le {K V : Type} (m : Nat) (d : List (K × V)) :
    (lruEvict m d).length ≤ m ∨ lruEvict m d = d := by
  rw [lruEvict_eq_drop, List.length_drop]
  by_cases h : d.length ≤ m
  · right; rw [Nat.sub_eq_zero_of_le h, List.drop_zero]
  · left; omega

theorem lruEvict_length_le_of_gt {K V : Type} (m : Nat) (d : List (K × V)) :
    (lruEvict m d).length ≤ max m d.length := by
  rw [lruEvict_eq_drop, List.length_drop]; omega

theorem lruMoveToEnd_length_le {K V : Type} [DecidableEq K]
    (d : List (K × V)) (k : K) : (lruMoveToEnd d k).length ≤ d.length := by
  unfold lruMoveToEnd
  cases hf : d.find? (fun e => e.1 = k) with
  | none => exact Nat.le_refl _
  | some e =>
    have he : e ∈ d := List.mem_of_find?_eq_some hf
    have hp := List.find?_some hf
    rw [List.length_append, List.length_eraseP_of_mem he hp]
    simp only [List.length_singleton]
    have : 1 ≤ d.length := List.length_pos.mpr (by rintro rfl; simp at he)
    omega

theorem LRUCache.applyOp_maxItems {K V : Type} [DecidableEq K]
    (c : LRUCache K V) (op : CacheOp K V) :
    (c.applyOp op).maxItems = c.maxItems := by
  cases op with
  | get k =>
    simp only [LRUCache.applyOp, LRUCache.get]
    split <;> rfl
  | put k v => rfl
  | clear => rfl

theorem LRUCache.applyOp_length {K V : Type} [DecidableEq K]
    (c : LRUCache K V) (op : CacheOp K V) (h : c.d.length ≤ c.maxItems) :
    (c.applyOp op).d.length ≤ c.maxItems := by
  cases op with
  | get k =>
    simp only [LRUCache.applyOp, LRUCache.get]
    split
    · exact Nat.le_trans (lruMoveToEnd_length_le c.d k) h
    · exact h
  | put k v =>
    simp only [LRUCache.applyOp, LRUCache.put]
    have hev := @lruEvict_length_le K V c.maxItems
      ((c.d.eraseP (fun e => e.1 = k)) ++ [(k, v)])
    rcases hev with hle | heq
    · exact hle
    · -- the eviction loop only leaves more than maxItems entries if it
      -- never ran, i.e. the appended list was within capacity already
      have h2 : ((c.d.eraseP (fun e => e.1 = k)) ++ [(k, v)]).length ≤ c.maxItems := by
        have heq2 := @lruEvict_eq_drop K V c.maxItems
          ((c.d.eraseP (fun e => e.1 = k)) ++ [(k, v)])
        rw [heq] at heq2
        have hd := congrArg List.length heq2
        rw [List.length_drop] at hd
        omega
      rw [heq]
      exact h2
  | clear => simp [LRUCache.applyOp, LRUCache.clear]

theorem LRUCache.run_inv {K V : Type} [DecidableEq K] :
    ∀ (ops : List (CacheOp K V)) (c : LRUCache K V),
      c.d.length ≤ c.maxItems →
      (c.run ops).maxItems = c.maxItems ∧ (c.run ops).d.length ≤ c.maxItems := by
  intro ops
  induction ops with
  | nil => intro c h; exact ⟨rfl, h⟩
  | cons op rest ih =>
    intro c h
    have h1 := LRUCache.applyOp_length c op h
    have h2 := LRUCache.applyOp_maxItems c op
    have := ih (c.applyOp op) (by rw [h2]; exact h1)
    rw [h2] at this
    exact this

/-- C10: the constructor coerces any `max_items` (including 0 and negative
values) to the effective capacity `max(1, int(max_items))`, so the cache
always admits at least one entry: a put into a cache built with capacity
≤ 0 still retains the inserted entry. -/
theorem c10_capacity_coercion (K V : Type) [DecidableEq K] (m : Int)
    (k : K) (v : V) (hm : m ≤ 0) :
    (LRUCache.init K V m).maxItems = (max 1 m).toNat ∧
    1 ≤ (LRUCache.init K V m).maxItems ∧
    (LRUCache.init K V m).maxItems = 1 ∧
    ((LRUCache.init K V m).put k v).d = [(k, v)] := by
  have hmax : (1 : Int) ≤ max 1 m := le_max_left 1 m
  have h1 : 1 ≤ (LRUCache.init K V m).maxItems := by
    simp only [LRUCache.init]; omega
  refine ⟨rfl, h1, ?_, ?_⟩
  · simp only [LRUCache.init]; omega
  · simp only [LRUCache.put, LRUCache.init, List.eraseP_nil, List.nil_append]
    rw [lruEvict_eq_drop]
    simp only [List.length_singleton]
    have : 1 - (LRUCache.init K V m).maxItems = 0 := by omega
    simp only [LRUCache.init] at this
    rw [this, List.drop_zero]

/-- C10 witness at a negative capacity. -/
theorem c10_capacity_coercion_witness :
    (LRUCache.init Nat Nat (-3)).maxItems = (max 1 (-3 : Int)).toNat ∧
    1 ≤ (LRUCache.init Nat Nat (-3)).maxItems ∧
    (LRUCache.init Nat Nat (-3)).maxItems = 1 ∧
    ((LRUCache.init Nat Nat (-3)).put 5 7).d = [(5, 7)] :=
  c10_capacity_coercion Nat Nat (-3) 5 7 (by omega)

/-- C6 counterexample: in a capacity-1 cache holding key 10, `get 10` hits
(returning the stored value, hence promoting it to most recently used per
the code), yet the very next insertion of a fresh key evicts key 10 — the
just-promoted key *is* the next eviction victim, refuting the claim's
"promotes … so it is not the next eviction victim" for N = 1. -/
theorem c6_promoted_key_evicted_cex :
    ((((LRUCache.init Nat Nat 1).put 10 0).get 10).1 = some 0) ∧
    (((((LRUCache.init Nat Nat 1).put 10 0).get 10).2.put 20 0).d.map
      Prod.fst = [20]) := by
  constructor
  · decide
  · decide

/-- C6 amended: (i) for every constructor argument and operation sequence
the entry count stays within the effective capacity; (ii) a `put` splits
the freshly inserted list into an evicted front segment (the least recently
used entries) and the kept tail, the kept part having length
`min (inserted length) N`; (iii) a `get` hit moves the key to the
most-recently-used (back) position, and — provided the cache holds at least
two entries — the promoted key survives the next eviction caused by
inserting a fresh key.  (At size one, the promoted key is simultaneously
the least recently used, so the claim's unconditional form fails.) -/
theorem c6_lru_invariants (K V : Type) [DecidableEq K] :
    (∀ (m : Int) (ops : List (CacheOp K V)),
      ((LRUCache.init K V m).run ops).d.length ≤
        (LRUCache.init K V m).maxItems) ∧
    (∀ (c : LRUCache K V) (k : K) (v : V),
      ∃ evicted kept,
        (c.d.eraseP (fun e => e.1 = k)) ++ [(k, v)] = evicted ++ kept ∧
        (c.put k v).d = kept ∧
        kept.length =
          min ((c.d.eraseP (fun e => e.1 = k)) ++ [(k, v)]).length
            c.maxItems) ∧
    (∀ (c : LRUCache K V) (k k' : K) (v' : V),
      c.d.any (fun e => e.1 = k) = true →
      2 ≤ c.d.length →
      c.d.length ≤ c.maxItems →
      c.d.any (fun e => e.1 = k') = false →
      ((c.get k).2.d.getLast?.map Prod.fst = some k) ∧
      ((c.get k).2.put k' v').d.any (fun e => e.1 = k) = true) := by
  refine ⟨?_, ?_, ?_⟩
  · -- (i) size never exceeds capacity
    intro m ops
    exact (LRUCache.run_inv ops (LRUCache.init K V m) (by simp [LRUCache.init])).2
  · -- (ii) eviction removes a front (least-recently-used) segment
    intro c k v
    set d1 := (c.d.eraseP (fun e => e.1 = k)) ++ [(k, v)] with hd1
    refine ⟨d1.take (d1.length - c.maxItems), d1.drop (d1.length - c.maxItems),
      (List.take_append_drop _ _).symm, ?_, ?_⟩
    · simp only [LRUCache.put]
      exact lruEvict_eq_drop c.maxItems d1
    · rw [List.length_drop]; omega
  · -- (iii) a promoted key is at the back and survives the next eviction
    intro c k k' v' hhit hlen hcap hfresh
    have hget : (c.get k).2 = { c with d := lruMoveToEnd c.d k } := by
      simp only [LRUCache.get, hhit, if_pos]
    obtain ⟨e, hemem, hek⟩ := List.any_eq_true.mp hhit
    have hfind : ∃ e', c.d.find? (fun e => e.1 = k) = some e' := by
      have : (c.d.find? (fun e => e.1 = k)).isSome := by
        rw [List.find?_isSome]; exact ⟨e, hemem, hek⟩
      exact Option.isSome_iff_exists.mp this
    obtain ⟨e', hfind⟩ := hfind
    have he'k : e'.1 = k := by simpa using List.find?_some hfind
    have he'mem : e' ∈ c.d := List.mem_of_find?_eq_some hfind
    have hmove : lruMoveToEnd c.d k =
        (c.d.eraseP (fun e => e.1 = k)) ++ [e'] := by
      unfold lruMoveToEnd; rw [hfind]
    have hfrontlen : (c.d.eraseP (fun e => e.1 = k)).length = c.d.length - 1 :=
      List.length_eraseP_of_mem he'mem (by simpa using he'k)
    constructor
    · rw [hget, hmove, List.getLast?_concat]
      simp [he'k]
    · -- the subsequent put of a fresh key evicts at most one entry, from
      -- the front; the promoted entry sits one before the back
      rw [hget, hmove]
      simp only [LRUCache.put]
      have hnone : ∀ x ∈ c.d, ¬(decide (x.1 = k') = true) := by
        intro x hx hc
        have hany : c.d.any (fun e => e.1 = k') = true :=
          List.any_eq_true.mpr ⟨x, hx, hc⟩
        rw [hfresh] at hany
        exact Bool.false_ne_true hany
      have hnotk' : ∀ a ∈ (c.d.eraseP (fun e => e.1 = k)) ++ [e'],
          ¬((fun e : K × V => decide (e.1 = k')) a = true) := by
        intro a ha
        have hain : a ∈ c.d := by
          rcases List.mem_append.mp ha with h1 | h1
          · exact List.mem_of_mem_eraseP h1
          · simp only [List.mem_singleton] at h1; rw [h1]; exact he'mem
        exact hnone a hain
      have herase :
          (((c.d.eraseP (fun e => e.1 = k)) ++ [e']).eraseP
            (fun e => e.1 = k')) = (c.d.eraseP (fun e => e.1 = k)) ++ [e'] :=
        List.eraseP_of_forall_not hnotk'
      rw [herase, lruEvict_eq_drop]
      set front := c.d.eraseP (fun e => e.1 = k) with hfront
      have hlen1 : ((front ++ [e']) ++ [(k', v')]).length = c.d.length + 1 := by
        simp only [List.length_append, List.length_singleton]
        omega
      have hdropn : ((front ++ [e']) ++ [(k', v')]).length - c.maxItems ≤
          front.length := by
        rw [hlen1]; omega
      rw [List.append_assoc, List.drop_append_of_le_length (by
        rw [← List.append_assoc, hlen1]; omega)]
      simp [List.any_append, he'k]

/-- C6 witness: a concrete two-entry, capacity-2 cache where the promoted
key ends up most recently used and survives the next eviction. -/
theorem c6_lru_invariants_witness :
    (((⟨2, [(1, 10), (2, 20)]⟩ : LRUCache Nat Nat).get 1).2.d.getLast?.map
      Prod.fst = some 1) ∧
    ((((⟨2, [(1, 10), (2, 20)]⟩ : LRUCache Nat Nat).get 1).2.put 3 30).d.any
      (fun e => e.1 = 1) = true) :=
  (c6_lru_invariants Nat Nat).2.2 ⟨2, [(1, 10), (2, 20)]⟩ 1 3 30
    (by decide) (by decide) (by decide) (by decide)

/-! ## Cache key identity (C2, C3) -/

/-- C3 counterexample: two stats of the same path whose modification
timestamps differ (5.2 s vs 5.9 s) but truncate to the same `int(...)`,
producing the *same* cache key even though the timestamp changed. -/
theorem c3_truncated_mtime_same_key_cex :
    computeKey ⟨id, fun _ => some mt52, fun _ => none⟩ "p" false =
      computeKey ⟨id, fun _ => some mt59, fun _ => none⟩ "p" false ∧
    mt52 ≠ mt59 := by
  constructor
  · decide
  · decide

/-- C3 amended: for two loads of the same path with the same inversion flag
whose stats both succeed, the computed keys are equal *iff* the
timestamps truncated to integer seconds (`int(st.st_mtime)`) are equal —
sub-second timestamp changes do not change the key. -/
theorem c3_key_iff_truncated_mtime (A : String → String)
    (st1 st2 : String → Option Rat) (o1 o2 : String → Option PImage)
    (path : String) (invert : Bool) (m1 m2 : Rat)
    (h1 : st1 (A path) = some m1) (h2 : st2 (A path) = some m2) :
    (computeKey ⟨A, st1, o1⟩ path invert = computeKey ⟨A, st2, o2⟩ path invert)
      ↔ pyInt m1 = pyInt m2 := by
  simp [computeKey, h1, h2]

/-- C3 witness: concrete instance of the key/timestamp equivalence. -/
theorem c3_key_iff_truncated_mtime_witness :
    (computeKey ⟨id, fun _ => some mt52, fun _ => none⟩ "p" false =
      computeKey ⟨id, fun _ => some mt72, fun _ => none⟩ "p" false)
      ↔ pyInt mt52 = pyInt mt72 :=
  c3_key_iff_truncated_mtime id (fun _ => some mt52)
    (fun _ => some mt72) (fun _ => none) (fun _ => none)
    "p" false mt52 mt72 rfl rfl

theorem LRUCache.get_miss {K V : Type} [DecidableEq K] (c : LRUCache K V)
    (k : K) (h : c.d.any (fun e => e.1 = k) = false) : c.get k = (none, c) := by
  simp only [LRUCache.get, h]
  simp

theorem LRUCache.put_contains {K V : Type} [DecidableEq K] (c : LRUCache K V)
    (k : K) (v : V) (hcap : 1 ≤ c.maxItems) :
    (c.put k v).d.any (fun e => e.1 = k) = true := by
  simp only [LRUCache.put]
  rw [lruEvict_eq_drop]
  set l := c.d.eraseP (fun e => e.1 = k) with hl
  have hlen : (l ++ [(k, v)]).length = l.length + 1 := by
    simp
  have hle : (l ++ [(k, v)]).length - c.maxItems ≤ l.length := by omega
  rw [List.drop_append_of_le_length hle, List.any_append]
  simp

/-- C2 counterexample: with `os.stat` failing, the first file-blit load of
path "p" stores the decoded image under the degraded key
`("p", None, False)`, and a second load of the same path — whose
degraded key is *equal* to the first — hits the cache (it returns an image
even though `Image.open` now fails), refuting both "never considered
equal across calls" and "not stored under a degraded key". -/
theorem c2_degraded_key_cached_cex :
    computeKey ⟨id, fun _ => none, fun _ => some ⟨1, 1, fun _ _ => 255, PMode.one⟩⟩
        "p" false = ("p", none, false) ∧
    computeKey ⟨id, fun _ => none, fun _ => (none : Option PImage)⟩ "p" false =
      ("p", none, false) ∧
    ((load_image_mono_cached
        ⟨id, fun _ => none, fun _ => some ⟨1, 1, fun _ _ => 255, PMode.one⟩⟩
        ⟨⟨8, 8, fun _ _ => 0, PMode.L⟩, 255, LRUCache.init CKey PImage 64⟩
        "p" false).2.bmp_cache.d.map Prod.fst = [("p", none, false)]) ∧
    ((load_image_mono_cached ⟨id, fun _ => none, fun _ => none⟩
        (load_image_mono_cached
          ⟨id, fun _ => none, fun _ => some ⟨1, 1, fun _ _ => 255, PMode.one⟩⟩
          ⟨⟨8, 8, fun _ _ => 0, PMode.L⟩, 255, LRUCache.init CKey PImage 64⟩
          "p" false).2 "p" false).1.isSome = true) := by
  refine ⟨by decide, by decide, by decide, by decide⟩

/-- C2 amended: when `os.stat` fails the key degrades to
`(path, None, invert)`; degraded keys for the same path and inversion flag
*are* equal across calls, the decoded image *is* stored in the cache under
the degraded key, and a subsequent call with the same path therefore hits
the cache (returning an image regardless of whether the file can still be
opened). -/
theorem c2_degraded_key_behavior (fs fs2 : FileSystem) (lcd : LCD)
    (path : String) (invert : Bool) (img0 : PImage)
    (h1 : fs.stat (fs.abspath path) = none)
    (h2 : fs2.stat (fs2.abspath path) = none)
    (h3 : fs.openImg path = some img0)
    (h4 : lcd.bmp_cache.d.any
      (fun e => e.1 = ((path, none, invert) : CKey)) = false)
    (h5 : 1 ≤ lcd.bmp_cache.maxItems) :
    computeKey fs path invert = (path, none, invert) ∧
    computeKey fs2 path invert = (path, none, invert) ∧
    ((load_image_mono_cached fs lcd path invert).2.bmp_cache.d.any
      (fun e => e.1 = ((path, none, invert) : CKey)) = true) ∧
    ((load_image_mono_cached fs2
        (load_image_mono_cached fs lcd path invert).2 path invert).1.isSome
      = true) := by
  have hkey1 : computeKey fs path invert = (path, none, invert) := by
    unfold computeKey; rw [h1]
  have hkey2 : computeKey fs2 path invert = (path, none, invert) := by
    unfold computeKey; rw [h2]
  have hget := LRUCache.get_miss lcd.bmp_cache ((path, none, invert) : CKey) h4
  have hshape : ∃ img3, load_image_mono_cached fs lcd path invert =
      (some img3, { lcd with
        bmp_cache := lcd.bmp_cache.put ((path, none, invert) : CKey) img3 }) := by
    simp only [load_image_mono_cached, hkey1, hget, h3]
    exact ⟨_, rfl⟩
  obtain ⟨img3, hload1⟩ := hshape
  have hstored := LRUCache.put_contains lcd.bmp_cache
    ((path, none, invert) : CKey) img3 h5
  have hany : ((load_image_mono_cached fs lcd path invert).2.bmp_cache.d.any
      (fun e => e.1 = ((path, none, invert) : CKey))) = true := by
    rw [hload1]; exact hstored
  refine ⟨hkey1, hkey2, hany, ?_⟩
  -- the second call hits: its key is degraded and equal to the stored one
  rw [hload1]
  obtain ⟨e, hemem, hpe⟩ := List.any_eq_true.mp hstored
  have hfindSome : (((lcd.bmp_cache.put ((path, none, invert) : CKey)
      img3).d.find? (fun e => e.1 = ((path, none, invert) : CKey)))).isSome := by
    rw [List.find?_isSome]
    exact ⟨e, hemem, hpe⟩
  obtain ⟨e', hfind⟩ := Option.isSome_iff_exists.mp hfindSome
  simp only [load_image_mono_cached, hkey2, LRUCache.get, hstored, hfind]
  simp

/-- C2 witness: concrete filesystem where stat always fails, first open
succeeds, second open fails; the degraded-key behaviour is observable. -/
theorem c2_degraded_key_behavior_witness :
    computeKey ⟨id, fun _ => none,
        fun _ => some ⟨1, 1, fun _ _ => 255, PMode.one⟩⟩ "p" false =
      ("p", none, false) ∧
    computeKey ⟨id, fun _ => none, fun _ => (none : Option PImage)⟩ "p" false =
      ("p", none, false) ∧
    ((load_image_mono_cached
        ⟨id, fun _ => none, fun _ => some ⟨1, 1, fun _ _ => 255, PMode.one⟩⟩
        ⟨⟨8, 8, fun _ _ => 0, PMode.L⟩, 255, LRUCache.init CKey PImage 64⟩
        "p" false).2.bmp_cache.d.any
      (fun e => e.1 = (("p", none, false) : CKey)) = true) ∧
    ((load_image_mono_cached ⟨id, fun _ => none, fun _ => none⟩
        (load_image_mono_cached
          ⟨id, fun _ => none, fun _ => some ⟨1, 1, fun _ _ => 255, PMode.one⟩⟩
          ⟨⟨8, 8, fun _ _ => 0, PMode.L⟩, 255, LRUCache.init CKey PImage 64⟩
          "p" false).2 "p" false).1.isSome = true) :=
  c2_degraded_key_behavior
    ⟨id, fun _ => none, fun _ => some ⟨1, 1, fun _ _ => 255, PMode.one⟩⟩
    ⟨id, fun _ => none, fun _ => none⟩
    ⟨⟨8, 8, fun _ _ => 0, PMode.L⟩, 255, LRUCache.init CKey PImage 64⟩
    "p" false ⟨1, 1, fun _ _ => 255, PMode.one⟩
    rfl rfl rfl (by decide) (by decide)

/-! ## File-blit failure containment (C9) -/

/-- C9: when the computed key misses the cache and `Image.open` fails, the
load path returns `None` with the LCD (framebuffer *and* cache, including
its recency order) unchanged, and `drawXBMfile` completes without
propagating an exception and without touching the framebuffer. -/
theorem c9_open_failure_noop (fs : FileSystem) (lcd : LCD) (path : String)
    (x y : Int) (invert : Bool)
    (hopen : fs.openImg path = none)
    (hmiss : lcd.bmp_cache.d.any
      (fun e => e.1 = computeKey fs path invert) = false) :
    load_image_mono_cached fs lcd path invert = (none, lcd) ∧
    drawXBMfile fs lcd path x y invert = some lcd := by
  have hget := LRUCache.get_miss lcd.bmp_cache (computeKey fs path invert) hmiss
  have hload : load_image_mono_cached fs lcd path invert = (none, lcd) := by
    simp only [load_image_mono_cached, hget, hopen]
  exact ⟨hload, by simp only [drawXBMfile, hload]⟩

/-- C9 witness: a missing file on an LCD with an empty cache. -/
theorem c9_open_failure_noop_witness :
    load_image_mono_cached ⟨id, fun _ => none, fun _ => none⟩
      ⟨⟨8, 8, fun _ _ => 0, PMode.L⟩, 255, LRUCache.init CKey PImage 64⟩
      "missing.xbm" false =
      (none, ⟨⟨8, 8, fun _ _ => 0, PMode.L⟩, 255, LRUCache.init CKey PImage 64⟩) ∧
    drawXBMfile ⟨id, fun _ => none, fun _ => none⟩
      ⟨⟨8, 8, fun _ _ => 0, PMode.L⟩, 255, LRUCache.init CKey PImage 64⟩
      "missing.xbm" 3 4 false =
      some ⟨⟨8, 8, fun _ _ => 0, PMode.L⟩, 255, LRUCache.init CKey PImage 64⟩ :=
  c9_open_failure_noop ⟨id, fun _ => none, fun _ => none⟩
    ⟨⟨8, 8, fun _ _ => 0, PMode.L⟩, 255, LRUCache.init CKey PImage 64⟩
    "missing.xbm" 3 4 false rfl (by decide)

/-! ## Live-reload loop (C1, C5) -/

/-- C1: evaluation of the tick loop at the failing input.  Tick 1 loads
version 1 (a file defining `draw`) and draws it.  On tick 2 the file has
changed (new mtime 2) and its `exec` raises: `_load` renders the exec
error but leaves `_module_env` bound to version 1, so the *same tick*
then invokes the stale version-1 entry point (overwriting the error
frame), and tick 3 (mtime unchanged) invokes it again with no error shown
— the stale binding is kept paired with the new timestamp, contradicting
the claimed discard. -/
theorem c1_stale_entry_invoked_after_failed_reload :
    (runTicks rInit
      [⟨some 1, true, some ⟨1, true, false⟩, false⟩,
       ⟨some 2, true, none, false⟩,
       ⟨some 2, true, none, false⟩]).2 =
      [[Frame.drawn 1], [Frame.execErr, Frame.drawn 1], [Frame.drawn 1]] ∧
    (runTicks rInit
      [⟨some 1, true, some ⟨1, true, false⟩, false⟩,
       ⟨some 2, true, none, false⟩,
       ⟨some 2, true, none, false⟩]).1 =
      { last_mtime := some 2, module_env := some ⟨1, true, false⟩,
        func_name := some "draw" } := by
  constructor
  · decide
  · decide

/-- C5: while bound, a tick whose entry-point invocation raises renders the
captured draw error and keeps the binding; the next tick with an unchanged
timestamp re-invokes the same entry point with no reload in between (the
state — timestamp, environment, function name — is exactly preserved, and
the read/exec outcomes of both ticks are irrelevant because `_load` returns
before reaching them). -/
theorem c5_run_error_retry (s : RState) (env : ProgEnv) (m : Rat)
    (r1 r2 : Bool) (e1 e2 : Option ProgEnv)
    (hm : s.last_mtime = some m)
    (henv : s.module_env = some env)
    (hfn : funcOk s env = true) :
    tick s ⟨some m, r1, e1, true⟩ = (s, [Frame.runErr env.version]) ∧
    tick s ⟨some m, r2, e2, false⟩ = (s, [Frame.drawn env.version]) := by
  have hload1 : loadStep s ⟨some m, r1, e1, true⟩ = (s, []) := by
    simp [loadStep, hm]
  have hload2 : loadStep s ⟨some m, r2, e2, false⟩ = (s, []) := by
    simp [loadStep, hm]
  constructor
  · simp only [tick, hload1, henv, hfn]
    simp
  · simp only [tick, hload2, henv, hfn]
    simp

/-- C5 witness: a concrete bound state faulting on tick 1 and succeeding on
tick 2, yielding an error frame then a normal frame. -/
theorem c5_run_error_retry_witness :
    tick { last_mtime := some 1, module_env := some ⟨7, true, false⟩,
           func_name := some "draw" } ⟨some 1, true, none, true⟩ =
      ({ last_mtime := some 1, module_env := some ⟨7, true, false⟩,
         func_name := some "draw" }, [Frame.runErr 7]) ∧
    tick { last_mtime := some 1, module_env := some ⟨7, true, false⟩,
           func_name := some "draw" } ⟨some 1, true, none, false⟩ =
      ({ last_mtime := some 1, module_env := some ⟨7, true, false⟩,
         func_name := some "draw" }, [Frame.drawn 7]) :=
  c5_run_error_retry
    { last_mtime := some 1, module_env := some ⟨7, true, false⟩,
      func_name := some "draw" }
    ⟨7, true, false⟩ 1 true true none none rfl rfl rfl

/-! ## Blitter lemmas -/

theorem foldlM_option_of_pure {A B : Type} (f : A → B → Option A)
    (g : A → B → A) (hfg : ∀ a b, f a b = some (g a b)) :
    ∀ (l : List B) (a : A), l.foldlM f a = some (l.foldl g a) := by
  intro l
  induction l with
  | nil => intro a; rfl
  | cons b t ih =>
    intro a
    rw [List.foldlM_cons, hfg, List.foldl_cons]
    simpa using ih (g a b)

theorem foldlM_option_inv {A B : Type} (f : A → B → Option A) (P : A → Prop)
    (hstep : ∀ a b, P a → ∃ a2, f a b = some a2 ∧ P a2) :
    ∀ (l : List B) (a : A), P a → ∃ a2, l.foldlM f a = some a2 ∧ P a2 := by
  intro l
  induction l with
  | nil => intro a ha; exact ⟨a, rfl, ha⟩
  | cons b t ih =>
    intro a ha
    obtain ⟨a1, hf, hp1⟩ := hstep a b ha
    obtain ⟨a2, hrest, hp2⟩ := ih a1 hp1
    refine ⟨a2, ?_, hp2⟩
    rw [List.foldlM_cons, hf]
    simpa using hrest

theorem blitStep_eq_pure (on_color : Nat) (x y : Int) (lcd : LCD) :
    blitStep on_color x y lcd = some (blitStepPure on_color x y lcd) := by
  by_cases hc : 0 ≤ x ∧ x < (lcd.img.width : Int) ∧ 0 ≤ y ∧
      y < (lcd.img.height : Int)
  · simp [blitStep, blitStepPure, PImage.putpixel, LCD.width, LCD.height, hc]
  · simp [blitStep, blitStepPure, PImage.putpixel, LCD.width, LCD.height, hc]

theorem blitStepPure_dims (on_color : Nat) (x y : Int) (lcd : LCD) :
    (blitStepPure on_color x y lcd).img.width = lcd.img.width ∧
    (blitStepPure on_color x y lcd).img.height = lcd.img.height ∧
    (blitStepPure on_color x y lcd).img.mode = lcd.img.mode ∧
    (blitStepPure on_color x y lcd).draw_color = lcd.draw_color ∧
    (blitStepPure on_color x y lcd).bmp_cache = lcd.bmp_cache := by
  unfold blitStepPure PImage.putpixelSet
  split <;> simp

theorem blitStepPure_pix (on_color : Nat) (x y : Int) (lcd : LCD)
    (i j : Int) :
    (blitStepPure on_color x y lcd).img.pix i j =
      if (i = x ∧ j = y) ∧ (0 ≤ i ∧ i < (lcd.img.width : Int) ∧ 0 ≤ j ∧
          j < (lcd.img.height : Int)) then
        on_color
      else
        lcd.img.pix i j := by
  unfold blitStepPure PImage.putpixelSet
  by_cases hxy : i = x ∧ j = y
  · obtain ⟨hx, hy⟩ := hxy
    subst hx; subst hy
    by_cases hb : 0 ≤ i ∧ i < (lcd.img.width : Int) ∧ 0 ≤ j ∧
        j < (lcd.img.height : Int)
    · simp [LCD.width, LCD.height, hb]
    · simp [LCD.width, LCD.height, hb]
  · by_cases hb : 0 ≤ x ∧ x < (lcd.img.width : Int) ∧ 0 ≤ y ∧
        y < (lcd.img.height : Int)
    · simp [LCD.width, LCD.height, hb, hxy]
    · simp [LCD.width, LCD.height, hb, hxy]

theorem blitRowGo_char (on_color : Nat) (x y : Int) (buf : List Nat)
    (stride row : Nat) (invert : Bool) :
    ∀ (w : Nat) (acc : LCD),
      ((blitRowGo on_color x y buf stride row invert w acc).img.width =
          acc.img.width ∧
       (blitRowGo on_color x y buf stride row invert w acc).img.height =
          acc.img.height ∧
       (blitRowGo on_color x y buf stride row invert w acc).img.mode =
          acc.img.mode ∧
       (blitRowGo on_color x y buf stride row invert w acc).draw_color =
          acc.draw_color ∧
       (blitRowGo on_color x y buf stride row invert w acc).bmp_cache =
          acc.bmp_cache) ∧
      (∀ i j, (blitRowGo on_color x y buf stride row invert w acc).img.pix i j =
        if (0 ≤ i ∧ i < (acc.img.width : Int) ∧ 0 ≤ j ∧
            j < (acc.img.height : Int)) ∧
           (∃ c, c < w ∧ i = x + (c : Int) ∧ j = y + (row : Int) ∧
             bitAt buf stride row c invert = 1) then
          on_color
        else
          acc.img.pix i j) := by
  intro w
  induction w with
  | zero =>
    intro acc
    constructor
    · simp [blitRowGo]
    · intro i j; simp [blitRowGo]
  | succ w ih =>
    intro acc
    have hsplit : blitRowGo on_color x y buf stride row invert (w + 1) acc =
        if bitAt buf stride row w invert = 1 then
          blitStepPure on_color (x + (w : Int)) (y + (row : Int))
            (blitRowGo on_color x y buf stride row invert w acc)
        else
          blitRowGo on_color x y buf stride row invert w acc := by
      unfold blitRowGo
      rw [List.range_succ, List.foldl_append]
      simp
    obtain ⟨hdims, hpix⟩ := ih acc
    by_cases hbit : bitAt buf stride row w invert = 1
    · rw [hsplit, if_pos hbit]
      have hs := blitStepPure_dims on_color (x + (w : Int)) (y + (row : Int))
        (blitRowGo on_color x y buf stride row invert w acc)
      constructor
      · exact ⟨hs.1.trans hdims.1, hs.2.1.trans hdims.2.1,
          hs.2.2.1.trans hdims.2.2.1, hs.2.2.2.1.trans hdims.2.2.2.1,
          hs.2.2.2.2.trans hdims.2.2.2.2⟩
      · intro i j
        rw [blitStepPure_pix, hdims.1, hdims.2.1, hpix i j]
        by_cases hb : 0 ≤ i ∧ i < (acc.img.width : Int) ∧ 0 ≤ j ∧
            j < (acc.img.height : Int)
        · by_cases hxy : i = x + (w : Int) ∧ j = y + (row : Int)
          · rw [if_pos ⟨hxy, hb⟩,
              if_pos ⟨hb, ⟨w, Nat.lt_succ_self w, hxy.1, hxy.2, hbit⟩⟩]
          · rw [if_neg (fun hcon => hxy hcon.1)]
            by_cases hE : ∃ c, c < w ∧ i = x + (c : Int) ∧
                j = y + (row : Int) ∧ bitAt buf stride row c invert = 1
            · obtain ⟨c, hc, rest⟩ := hE
              rw [if_pos ⟨hb, ⟨c, hc, rest⟩⟩,
                if_pos ⟨hb, ⟨c, Nat.lt_succ_of_lt hc, rest⟩⟩]
            · rw [if_neg (fun hcon => hE hcon.2)]
              have hnE : ¬((0 ≤ i ∧ i < (acc.img.width : Int) ∧ 0 ≤ j ∧
                  j < (acc.img.height : Int)) ∧
                  (∃ c, c < w + 1 ∧ i = x + (c : Int) ∧ j = y + (row : Int) ∧
                    bitAt buf stride row c invert = 1)) := by
                rintro ⟨-, c, hc, hi, hj, hbc⟩
                rcases Nat.lt_succ_iff_lt_or_eq.mp hc with h' | h'
                · exact hE ⟨c, h', hi, hj, hbc⟩
                · subst h'; exact hxy ⟨hi, hj⟩
              rw [if_neg hnE]
        · rw [if_neg (fun hcon => hb hcon.2), if_neg (fun hcon => hb hcon.1),
            if_neg (fun hcon => hb hcon.1)]
    · rw [hsplit, if_neg hbit]
      refine ⟨hdims, ?_⟩
      intro i j
      rw [hpix i j]
      by_cases hb : 0 ≤ i ∧ i < (acc.img.width : Int) ∧ 0 ≤ j ∧
          j < (acc.img.height : Int)
      · by_cases hE : ∃ c, c < w ∧ i = x + (c : Int) ∧ j = y + (row : Int) ∧
            bitAt buf stride row c invert = 1
        · obtain ⟨c, hc, rest⟩ := hE
          rw [if_pos ⟨hb, ⟨c, hc, rest⟩⟩,
            if_pos ⟨hb, ⟨c, Nat.lt_succ_of_lt hc, rest⟩⟩]
        · rw [if_neg (fun hcon => hE hcon.2)]
          have hnE : ¬((0 ≤ i ∧ i < (acc.img.width : Int) ∧ 0 ≤ j ∧
              j < (acc.img.height : Int)) ∧
              (∃ c, c < w + 1 ∧ i = x + (c : Int) ∧ j = y + (row : Int) ∧
                bitAt buf stride row c invert = 1)) := by
            rintro ⟨-, c, hc, hi, hj, hbc⟩
            rcases Nat.lt_succ_iff_lt_or_eq.mp hc with h' | h'
            · exact hE ⟨c, h', hi, hj, hbc⟩
            · subst h'; exact hbit hbc
          rw [if_neg hnE]
      · rw [if_neg (fun hcon => hb hcon.1), if_neg (fun hcon => hb hcon.1)]

theorem drawBitmap1Go_char (x y : Int) (w : Nat) (buf : List Nat)
    (stride : Nat) (invert : Bool) (on_color : Nat) :
    ∀ (h : Nat) (lcd : LCD),
      ((drawBitmap1Go lcd x y w h buf stride invert on_color).img.width =
          lcd.img.width ∧
       (drawBitmap1Go lcd x y w h buf stride invert on_color).img.height =
          lcd.img.height ∧
       (drawBitmap1Go lcd x y w h buf stride invert on_color).img.mode =
          lcd.img.mode ∧
       (drawBitmap1Go lcd x y w h buf stride invert on_color).draw_color =
          lcd.draw_color ∧
       (drawBitmap1Go lcd x y w h buf stride invert on_color).bmp_cache =
          lcd.bmp_cache) ∧
      (∀ i j,
        (drawBitmap1Go lcd x y w h buf stride invert on_color).img.pix i j =
          if (0 ≤ i ∧ i < (lcd.img.width : Int) ∧ 0 ≤ j ∧
              j < (lcd.img.height : Int)) ∧
             (∃ r, r < h ∧ ∃ c, c < w ∧ i = x + (c : Int) ∧
               j = y + (r : Int) ∧ bitAt buf stride r c invert = 1) then
            on_color
          else
            lcd.img.pix i j) := by
  intro h
  induction h with
  | zero =>
    intro lcd
    constructor
    · simp [drawBitmap1Go]
    · intro i j; simp [drawBitmap1Go]
  | succ h ih =>
    intro lcd
    have hsplit : drawBitmap1Go lcd x y w (h + 1) buf stride invert on_color =
        blitRowGo on_color x y buf stride h invert w
          (drawBitmap1Go lcd x y w h buf stride invert on_color) := by
      unfold drawBitmap1Go
      rw [List.range_succ, List.foldl_append]
      simp
    obtain ⟨hdims, hpix⟩ := ih lcd
    obtain ⟨rdims, rpix⟩ := blitRowGo_char on_color x y buf stride h invert w
      (drawBitmap1Go lcd x y w h buf stride invert on_color)
    rw [hsplit]
    constructor
    · exact ⟨rdims.1.trans hdims.1, rdims.2.1.trans hdims.2.1,
        rdims.2.2.1.trans hdims.2.2.1, rdims.2.2.2.1.trans hdims.2.2.2.1,
        rdims.2.2.2.2.trans hdims.2.2.2.2⟩
    · intro i j
      rw [rpix i j, hdims.1, hdims.2.1, hpix i j]
      by_cases hb : 0 ≤ i ∧ i < (lcd.img.width : Int) ∧ 0 ≤ j ∧
          j < (lcd.img.height : Int)
      · by_cases hrow : ∃ c, c < w ∧ i = x + (c : Int) ∧ j = y + (h : Int) ∧
            bitAt buf stride h c invert = 1
        · obtain ⟨c, hc, hi, hj, hbc⟩ := hrow
          rw [if_pos ⟨hb, ⟨c, hc, hi, hj, hbc⟩⟩,
            if_pos ⟨hb, ⟨h, Nat.lt_succ_self h, ⟨c, hc, hi, hj, hbc⟩⟩⟩]
        · rw [if_neg (fun hcon => hrow hcon.2)]
          by_cases hE : ∃ r, r < h ∧ ∃ c, c < w ∧ i = x + (c : Int) ∧
              j = y + (r : Int) ∧ bitAt buf stride r c invert = 1
          · obtain ⟨r, hr, rest⟩ := hE
            rw [if_pos ⟨hb, ⟨r, hr, rest⟩⟩,
              if_pos ⟨hb, ⟨r, Nat.lt_succ_of_lt hr, rest⟩⟩]
          · rw [if_neg (fun hcon => hE hcon.2)]
            have hnE : ¬((0 ≤ i ∧ i < (lcd.img.width : Int) ∧ 0 ≤ j ∧
                j < (lcd.img.height : Int)) ∧
                (∃ r, r < h + 1 ∧ ∃ c, c < w ∧ i = x + (c : Int) ∧
                  j = y + (r : Int) ∧ bitAt buf stride r c invert = 1)) := by
              rintro ⟨-, r, hr, c, hc, hi, hj, hbc⟩
              rcases Nat.lt_succ_iff_lt_or_eq.mp hr with h' | h'
              · exact hE ⟨r, h', ⟨c, hc, hi, hj, hbc⟩⟩
              · subst h'; exact hrow ⟨c, hc, hi, hj, hbc⟩
            rw [if_neg hnE]
      · rw [if_neg (fun hcon => hb hcon.1), if_neg (fun hcon => hb hcon.1),
          if_neg (fun hcon => hb hcon.1)]

theorem drawBitmap1_eq_go (lcd : LCD) (x y : Int) (w h : Nat)
    (data : List Nat) (strideArg : Option Nat) (invert : Bool) :
    drawBitmap1 lcd x y w h data strideArg invert =
      some (drawBitmap1Go lcd x y w h (data.map (· % 256))
        (strideArg.getD ((w + 7) / 8)) invert lcd.draw_color) := by
  simp only [drawBitmap1, drawBitmap1Go, blitRowGo]
  apply foldlM_option_of_pure
  intro a row
  apply foldlM_option_of_pure
  intro a2 col
  by_cases hbit : bitAt (data.map (· % 256))
      (strideArg.getD ((w + 7) / 8)) row col invert = 1
  · simp [hbit, blitStep_eq_pure]
  · simp [hbit]

/-- C4 counterexample: on an 8×8 framebuffer, blitting w=8, h=1 with an
*empty* byte buffer and `invert=True` writes pixel (0,0) with the draw
color (the out-of-buffer bit decodes as 0 and is then inverted to 1),
although the claim's pixel set — which requires the byte index to lie
within `data` — is empty, so the claim predicts the pixel stays 0. -/
theorem c4_truncated_invert_cex :
    ((drawBitmap1
        ⟨⟨8, 8, fun _ _ => 0, PMode.L⟩, 255, LRUCache.init CKey PImage 64⟩
        0 0 8 1 [] none true).map (fun l => l.img.pix 0 0) = some 255) ∧
    ¬ claimedBlitCond 0 0 8 1 [] true 0 0 ∧
    ((⟨⟨8, 8, fun _ _ => 0, PMode.L⟩, 255,
        LRUCache.init CKey PImage 64⟩ : LCD).img.pix 0 0 = 0) := by
  refine ⟨by decide, by decide, rfl⟩

/-- C4 amended: the packed blit never errors and, at every in-bounds
framebuffer position, writes the current draw color exactly at
{ (x+c, y+r) : r < h, c < w, decoded-bit-after-inversion = 1 } where the
decoded bit of an out-of-buffer byte index is 0 *before* the optional
inversion (so with invert set, truncated positions are drawn); all other
pixels, and everything else in the LCD state, are untouched.  For
invert = false this set coincides with the claim's. -/
theorem c4_packed_blit_pixels (lcd : LCD) (x y : Int) (w h : Nat)
    (data : List Nat) (invert : Bool) :
    ∃ lcd', drawBitmap1 lcd x y w h data none invert = some lcd' ∧
      lcd'.draw_color = lcd.draw_color ∧
      lcd'.bmp_cache = lcd.bmp_cache ∧
      lcd'.img.width = lcd.img.width ∧
      lcd'.img.height = lcd.img.height ∧
      ∀ i j, lcd'.img.pix i j =
        if (0 ≤ i ∧ i < (lcd.img.width : Int) ∧ 0 ≤ j ∧
            j < (lcd.img.height : Int)) ∧
           (∃ r, r < h ∧ ∃ c, c < w ∧ i = x + (c : Int) ∧ j = y + (r : Int) ∧
             bitAt (data.map (· % 256)) ((w + 7) / 8) r c invert = 1) then
          lcd.draw_color
        else
          lcd.img.pix i j := by
  obtain ⟨hdims, hpix⟩ := drawBitmap1Go_char x y w (data.map (· % 256))
    ((w + 7) / 8) invert lcd.draw_color h lcd
  exact ⟨_, drawBitmap1_eq_go lcd x y w h data none invert,
    hdims.2.2.2.1, hdims.2.2.2.2, hdims.1, hdims.2.1, hpix⟩

/-- C7: clipping.  (a) `drawPixel` at any out-of-range coordinate returns
the LCD unchanged and raises no error; (b) every per-pixel write of the
packed blit targeting an out-of-range destination is discarded — the blit
completes without error and out-of-range positions keep their old value;
(c) the same for the file-image blit. -/
theorem c7_clipping :
    (∀ (lcd : LCD) (x y : Int), ¬ inB lcd x y →
      drawPixel lcd x y = some lcd) ∧
    (∀ (lcd : LCD) (x y : Int) (w h : Nat) (data : List Nat)
        (strideArg : Option Nat) (invert : Bool) (i j : Int), ¬ inB lcd i j →
      ∃ lcd', drawBitmap1 lcd x y w h data strideArg invert = some lcd' ∧
        lcd'.img.pix i j = lcd.img.pix i j) ∧
    (∀ (lcd : LCD) (pimg : PImage) (x y : Int) (i j : Int), ¬ inB lcd i j →
      ∃ lcd', blitPILImageMono lcd pimg x y = some lcd' ∧
        lcd'.img.pix i j = lcd.img.pix i j) := by
  refine ⟨?_, ?_, ?_⟩
  · intro lcd x y hxy
    unfold inB at hxy
    simp only [drawPixel]
    rw [if_neg hxy]
  · intro lcd x y w h data strideArg invert i j hij
    unfold inB LCD.width LCD.height at hij
    refine ⟨_, drawBitmap1_eq_go lcd x y w h data strideArg invert, ?_⟩
    obtain ⟨hdims, hpix⟩ := drawBitmap1Go_char x y w (data.map (· % 256))
      (strideArg.getD ((w + 7) / 8)) invert lcd.draw_color h lcd
    rw [hpix i j, if_neg (fun hcon => hij hcon.1)]
  · intro lcd pimg x y i j hij
    unfold inB LCD.width LCD.height at hij
    have hres : ∃ lcd', blitPILImageMono lcd pimg x y = some lcd' ∧
        (lcd'.img.width = lcd.img.width ∧ lcd'.img.height = lcd.img.height ∧
         lcd'.img.pix i j = lcd.img.pix i j) := by
      simp only [blitPILImageMono]
      refine foldlM_option_inv _
        (fun a => a.img.width = lcd.img.width ∧
          a.img.height = lcd.img.height ∧ a.img.pix i j = lcd.img.pix i j)
        ?_ _ lcd ⟨rfl, rfl, rfl⟩
      intro a jj ha
      refine foldlM_option_inv _
        (fun a => a.img.width = lcd.img.width ∧
          a.img.height = lcd.img.height ∧ a.img.pix i j = lcd.img.pix i j)
        ?_ _ a ha
      intro b ii hb
      dsimp only
      by_cases hcond :
          (if pimg.pix (ii : Nat) (jj : Nat) ≠ 0 then 1 else 0) ≠ 0 ∧
          0 ≤ x + (ii : Nat) ∧ x + (ii : Nat) < (b.width : Int) ∧
          0 ≤ y + (jj : Nat) ∧ y + (jj : Nat) < (b.height : Int)
      · have hput : b.img.putpixel (x + (ii : Nat)) (y + (jj : Nat))
            lcd.draw_color = some (b.img.putpixelSet (x + (ii : Nat))
              (y + (jj : Nat)) lcd.draw_color) := by
          unfold PImage.putpixel
          exact if_pos hcond.2
        rw [if_pos hcond, hput]
        refine ⟨⟨b.img.putpixelSet (x + (ii : Nat)) (y + (jj : Nat))
            lcd.draw_color, b.draw_color, b.bmp_cache⟩, rfl, ?_, ?_, ?_⟩
        · simpa [PImage.putpixelSet] using hb.1
        · simpa [PImage.putpixelSet] using hb.2.1
        · have hne : ¬(i = x + (ii : Nat) ∧ j = y + (jj : Nat)) := by
            rintro ⟨hi, hj⟩
            apply hij
            refine ⟨?_, ?_, ?_, ?_⟩
            · rw [hi]; exact hcond.2.1
            · rw [hi, ← hb.1]; exact hcond.2.2.1
            · rw [hj]; exact hcond.2.2.2.1
            · rw [hj, ← hb.2.1]; exact hcond.2.2.2.2
          simp only [PImage.putpixelSet]
          rw [if_neg hne]
          exact hb.2.2
      · rw [if_neg hcond]
        exact ⟨b, rfl, hb⟩
    obtain ⟨lcd', hrun, hp⟩ := hres
    exact ⟨lcd', hrun, hp.2.2⟩

/-- C7 witness: concrete out-of-range calls on an 8×8 framebuffer. -/
theorem c7_clipping_witness :
    (drawPixel ⟨⟨8, 8, fun _ _ => 0, PMode.L⟩, 255,
      LRUCache.init CKey PImage 64⟩ (-1) 3 =
      some ⟨⟨8, 8, fun _ _ => 0, PMode.L⟩, 255,
        LRUCache.init CKey PImage 64⟩) ∧
    (∃ lcd', drawBitmap1 ⟨⟨8, 8, fun _ _ => 0, PMode.L⟩, 255,
        LRUCache.init CKey PImage 64⟩ 6 0 8 1 [255] none false = some lcd' ∧
      lcd'.img.pix 9 0 =
        (⟨⟨8, 8, fun _ _ => 0, PMode.L⟩, 255,
          LRUCache.init CKey PImage 64⟩ : LCD).img.pix 9 0) ∧
    (∃ lcd', blitPILImageMono ⟨⟨8, 8, fun _ _ => 0, PMode.L⟩, 255,
        LRUCache.init CKey PImage 64⟩ ⟨2, 2, fun _ _ => 255, PMode.one⟩ 7 7 =
        some lcd' ∧
      lcd'.img.pix 8 8 =
        (⟨⟨8, 8, fun _ _ => 0, PMode.L⟩, 255,
          LRUCache.init CKey PImage 64⟩ : LCD).img.pix 8 8) :=
  ⟨c7_clipping.1 ⟨⟨8, 8, fun _ _ => 0, PMode.L⟩, 255,
      LRUCache.init CKey PImage 64⟩ (-1) 3 (by decide),
   c7_clipping.2.1 ⟨⟨8, 8, fun _ _ => 0, PMode.L⟩, 255,
      LRUCache.init CKey PImage 64⟩ 6 0 8 1 [255] none false 9 0 (by decide),
   c7_clipping.2.2 ⟨⟨8, 8, fun _ _ => 0, PMode.L⟩, 255,
      LRUCache.init CKey PImage 64⟩ ⟨2, 2, fun _ _ => 255, PMode.one⟩ 7 7 8 8
      (by decide)⟩

/-! ## Degenerate box/frame (C8) -/

/-- C8 evaluation at the failing inputs: `drawBox`/`drawFrame` pass the
corner box `(x, y, x+w-1, y+h-1)` to `ImageDraw.rectangle` with no
degenerate-size guard, so for w = 0, h = 0 or negative sizes the corners
are inverted and the call errors (Pillow ≥ 9.2 raises ValueError; older
Pillow instead swapped the corners and painted a non-empty box) — either
way, not the claimed silent empty result. -/
theorem c8_degenerate_box_frame_errors :
    drawBox ⟨⟨8, 8, fun _ _ => 0, PMode.L⟩, 255,
      LRUCache.init CKey PImage 64⟩ 0 0 0 5 = none ∧
    drawFrame ⟨⟨8, 8, fun _ _ => 0, PMode.L⟩, 255,
      LRUCache.init CKey PImage 64⟩ 2 2 3 0 = none ∧
    drawBox ⟨⟨8, 8, fun _ _ => 0, PMode.L⟩, 255,
      LRUCache.init CKey PImage 64⟩ 1 1 (-2) 3 = none := by
  refine ⟨rfl, rfl, rfl⟩
